import Mathlib

/-!
Verification development for the Fourier-domain filtering and shearing
operators of the hcipy optics library, as implemented in
hcipy/fourier/fourier_operations.py, together with the OpticalElement base
class from hcipy/optics/optical_element.py.

Modelling conventions:
- numpy complex floating-point arithmetic is modelled by exact arithmetic in
  a field K carrying a star operation (complex conjugation);
- numpy's fft/ifft primitives are modelled by the discrete Fourier transform
  with respect to a root of unity parameter; theorems that genuinely depend
  on FFT inversion take an IsPrimitiveRoot hypothesis;
- transcendental ingredients (the exponential used by the shear phase ramp,
  and 2*pi in frequency coordinates) are passed as explicit parameters so
  that every definition stays executable;
- fields sampled on a 1-D grid of size n are functions Fin n -> K, a field
  with leading tensor shape (q,) is a function Fin q -> Fin n -> K, and
  2-D shaped arrays of shape (ny, nx) are functions Fin ny -> Fin nx -> K.
-/

set_option linter.unusedSectionVars false
set_option linter.unnecessarySeqFocus false

namespace HCIPy

open Finset

variable {K : Type} [Field K] [StarRing K]

/-- Discrete Fourier transform of length n with respect to the root omega,
modelling numpy.fft.fft / scipy fft (X_k = sum_j omega^(j*k) * x_j, where the
library uses omega = exp(-2*pi*i/n)). -/
def dft {n : ℕ} (ω : K) (x : Fin n → K) : Fin n → K :=
  fun k => ∑ j : Fin n, ω ^ (j.val * k.val) * x j

/-- Inverse discrete Fourier transform of length n, modelling
numpy.fft.ifft / scipy ifft (x_j = (1/n) * sum_k omega^(-j*k) * X_k). -/
def idft {n : ℕ} (ω : K) (x : Fin n → K) : Fin n → K :=
  fun j => (n : K)⁻¹ * ∑ k : Fin n, (ω⁻¹) ^ (j.val * k.val) * x k

/-- Orthogonality of the characters of a primitive n-th root of unity:
the basic identity underlying FFT inversion. -/
lemma root_orthogonality {n : ℕ} {ω : K} (hω : IsPrimitiveRoot ω n) (a b : Fin n) :
    ∑ k : Fin n, ω ^ (a.val * k.val) * (ω⁻¹) ^ (b.val * k.val)
      = if a = b then (n : K) else 0 := by
  have hn : n ≠ 0 := a.pos.ne'
  have hω0 : ω ≠ 0 := hω.ne_zero hn
  have hsum : ∀ k : Fin n, ω ^ (a.val * k.val) * (ω⁻¹) ^ (b.val * k.val)
      = (ω ^ a.val * (ω⁻¹) ^ b.val) ^ k.val := by
    intro k
    rw [pow_mul, pow_mul, mul_pow]
  rw [Finset.sum_congr rfl (fun k _ => hsum k),
    Fin.sum_univ_eq_sum_range (fun i => (ω ^ a.val * (ω⁻¹) ^ b.val) ^ i)]
  by_cases hab : a = b
  · subst hab
    have h1 : ω ^ a.val * (ω⁻¹) ^ a.val = 1 := by
      rw [inv_pow, mul_inv_cancel₀ (pow_ne_zero _ hω0)]
    rw [if_pos rfl, h1]
    simp
  · have hz1 : ω ^ a.val * (ω⁻¹) ^ b.val ≠ 1 := by
      intro hcon
      apply hab
      rw [inv_pow, mul_inv_eq_one₀ (pow_ne_zero _ hω0)] at hcon
      exact Fin.ext (hω.pow_inj a.isLt b.isLt hcon)
    have hzn : (ω ^ a.val * (ω⁻¹) ^ b.val) ^ n = 1 := by
      rw [mul_pow, ← pow_mul, ← pow_mul, mul_comm a.val n, mul_comm b.val n,
        pow_mul, pow_mul, hω.pow_eq_one, inv_pow, hω.pow_eq_one, inv_one,
        one_pow, one_pow, one_mul]
    rw [geom_sum_eq hz1, hzn, sub_self, zero_div, if_neg hab]

/-- ifft inverts fft: the round trip through the frequency domain is the
identity whenever omega is a primitive n-th root of unity and n is
invertible in K. -/
lemma idft_dft {n : ℕ} {ω : K} (hω : IsPrimitiveRoot ω n) (hn : (n : K) ≠ 0)
    (x : Fin n → K) : idft ω (dft ω x) = x := by
  funext j
  show (n : K)⁻¹ * ∑ k : Fin n, (ω⁻¹) ^ (j.val * k.val)
      * ∑ i : Fin n, ω ^ (i.val * k.val) * x i = x j
  have hswap : ∀ k : Fin n, (ω⁻¹) ^ (j.val * k.val) * ∑ i : Fin n, ω ^ (i.val * k.val) * x i
      = ∑ i : Fin n, ω ^ (i.val * k.val) * (ω⁻¹) ^ (j.val * k.val) * x i := by
    intro k
    rw [Finset.mul_sum]
    exact Finset.sum_congr rfl fun i _ => by ring
  rw [Finset.sum_congr rfl (fun k _ => hswap k), Finset.sum_comm]
  have hinner : ∀ i : Fin n, ∑ k : Fin n, ω ^ (i.val * k.val) * (ω⁻¹) ^ (j.val * k.val) * x i
      = (if i = j then (n : K) else 0) * x i := by
    intro i
    rw [← Finset.sum_mul, root_orthogonality hω i j]
  rw [Finset.sum_congr rfl (fun i _ => hinner i)]
  rw [Finset.sum_eq_single j (fun i _ hne => by rw [if_neg hne, zero_mul])
    (fun h => absurd (Finset.mem_univ j) h)]
  rw [if_pos rfl, ← mul_assoc, inv_mul_cancel₀ hn, one_mul]

/-- fft inverts ifft as well. -/
lemma dft_idft {n : ℕ} {ω : K} (hω : IsPrimitiveRoot ω n) (hn : (n : K) ≠ 0)
    (x : Fin n → K) : dft ω (idft ω x) = x := by
  funext k
  show ∑ j : Fin n, ω ^ (j.val * k.val)
      * ((n : K)⁻¹ * ∑ i : Fin n, (ω⁻¹) ^ (j.val * i.val) * x i) = x k
  have hswap : ∀ j : Fin n, ω ^ (j.val * k.val)
      * ((n : K)⁻¹ * ∑ i : Fin n, (ω⁻¹) ^ (j.val * i.val) * x i)
      = (n : K)⁻¹ * ∑ i : Fin n, ω ^ (k.val * j.val) * (ω⁻¹) ^ (i.val * j.val) * x i := by
    intro j
    rw [Finset.mul_sum, Finset.mul_sum, Finset.mul_sum]
    exact Finset.sum_congr rfl fun i _ => by
      rw [mul_comm j.val k.val, mul_comm j.val i.val]; ring
  rw [Finset.sum_congr rfl (fun j _ => hswap j), ← Finset.mul_sum, Finset.sum_comm]
  have hinner : ∀ i : Fin n, ∑ j : Fin n, ω ^ (k.val * j.val) * (ω⁻¹) ^ (i.val * j.val) * x i
      = (if k = i then (n : K) else 0) * x i := by
    intro i
    rw [← Finset.sum_mul, root_orthogonality hω k i]
  rw [Finset.sum_congr rfl (fun i _ => hinner i)]
  rw [Finset.sum_eq_single k (fun i _ hne => by rw [if_neg fun h => hne h.symm, zero_mul])
    (fun h => absurd (Finset.mem_univ k) h)]
  rw [if_pos rfl, ← mul_assoc, inv_mul_cancel₀ hn, one_mul]

/-- np.fft.ifftshift along one axis of length nn: a roll by -(nn / 2),
so that result[i] = x[(i + nn / 2) % nn]. -/
def ifftshift1 {nn : ℕ} {α : Type} (x : Fin nn → α) : Fin nn → α :=
  fun i => x ⟨(i.val + nn / 2) % nn, Nat.mod_lt _ i.pos⟩

/-- numpy dtype tags; only identity or difference of dtypes matters for
the cache logic of FourierFilter. -/
inductive DType where
  | float32
  | float64
  | complex64
  | complex128
deriving DecidableEq

/-- Modelled from the spec: the cutout region computed by
FastFourierTransform (fast_fourier_transform.py is not among the source
files). A padding factor q = 1 gives no padding, so the cutout is None and
the internal grid coincides with the input grid; q > 1 places the n input
samples at a fixed offset inside the padded internal grid of size m. -/
inductive Cutout (n m : ℕ) where
  | none (h : m = n)
  | some (o : ℕ) (h : o + n ≤ m)

/-- The test self.cutout is not None (line 115 of fourier_operations.py). -/
def Cutout.isSome {n m : ℕ} : Cutout n m → Bool
  | .none _ => false
  | .some _ _ => true

/-- Zero-extension of an input-grid array to the internal grid: the
identity view when there is no padding, otherwise the zeroed scratch with
the input copied into the cutout region (lines 106-112). -/
def Cutout.pad {n m : ℕ} : Cutout n m → (Fin n → K) → Fin m → K
  | .none h, f => fun x => f (Fin.cast h x)
  | .some o _, f => fun x =>
      if hx : o ≤ x.val ∧ x.val < o + n then f ⟨x.val - o, by omega⟩ else 0

/-- Cropping an internal-grid array back to the cutout region (the
indexing f[c] at line 151), or the identity view when there is no
padding. -/
def Cutout.crop {n m : ℕ} : Cutout n m → (Fin m → K) → Fin n → K
  | .none h, g => fun i => g (Fin.cast h.symm i)
  | .some o h, g => fun i => g ⟨o + i.val, by omega⟩

/-- A 1-D sampling grid described by its size, origin and spacing
(external collaborator; the filter claims only need grid identity). -/
structure Grid1 (K : Type) where
  size : ℕ
  x0 : K
  delta : K
deriving DecidableEq

/-- A stored transfer-function sample array of a FourierFilter on the
internal grid of size m: either a scalar field, or a matrix field holding
one p x q matrix per grid point. The scalar constructor carries p = q
because elementwise multiplication preserves the tensor shape of the field
it is applied to. -/
inductive TF (K : Type) (m p q : ℕ) where
  | scalar (h : p = q) (t : Fin m → K)
  | matrix (t : Fin m → Fin p → Fin q → K)

/-- The number of tensor axes of the stored transfer function, i.e. the
quantity self._transfer_function.ndim - self.internal_grid.ndim tested at
line 120. -/
def TF.tensorOrder {m p q : ℕ} : TF K m p q → ℕ
  | .scalar _ _ => 0
  | .matrix _ => 2

/-- Modelled from the spec: the matrix-field dot product field_dot
(imported from hcipy.field, which is not among the source files): one
matrix-vector product per sample point. -/
def field_dot {m a b : ℕ} (t : Fin m → Fin a → Fin b → K) (f : Fin b → Fin m → K) :
    Fin a → Fin m → K :=
  fun i x => ∑ j : Fin b, t x i j * f j x

/-- Modelled from the spec: field_conjugate_transpose (imported from
hcipy.field, which is not among the source files): the conjugate transpose
of the matrix at every sample point. -/
def field_conjugate_transpose {m a b : ℕ} (t : Fin m → Fin a → Fin b → K) :
    Fin m → Fin b → Fin a → K :=
  fun x i j => star (t x j i)

/-- The transfer-function application step of FourierFilter._operation
(lines 120-140): a matrix field acts by per-sample matrix-vector
contraction, with its conjugate transpose under adjoint; a scalar field
multiplies elementwise, conjugated under adjoint. -/
def TF.apply {m p q : ℕ} : (tf : TF K m p q) → (adjoint : Bool) →
    (Fin (cond adjoint p q) → Fin m → K) → Fin (cond adjoint q p) → Fin m → K
  | .scalar h t, false => fun f i x => f (Fin.cast h i) x * t x
  | .scalar h t, true => fun f i x => f (Fin.cast h.symm i) x * star (t x)
  | .matrix t, false => fun f => field_dot t f
  | .matrix t, true => fun f => field_dot (field_conjugate_transpose t) f

/-- Forward FFT over the grid axis, applied per tensor component
(_fft_module.fftn, line 118). -/
def fftn {m : ℕ} {α : Type} (ω : K) (g : α → Fin m → K) : α → Fin m → K :=
  fun i => dft ω (g i)

/-- Inverse FFT over the grid axis, applied per tensor component
(_fft_module.ifftn, line 145). -/
def ifftn {m : ℕ} {α : Type} (ω : K) (g : α → Fin m → K) : α → Fin m → K :=
  fun i => idft ω (g i)

/-- The user-supplied transfer function (line 36): a precomputed field in
natural (fftshift-ed) ordering on the internal grid, or a generator that
is invoked with a grid, represented here by the grid size. -/
inductive TFSpec (K : Type) (m p q : ℕ) where
  | precomputed (t : TF K m p q)
  | generator (g : (mm : ℕ) → TF K mm p q)

/-- Resolving the transfer function (lines 43-46): a generator is invoked
with the internal grid; a precomputed field is copied. -/
def TFSpec.resolve {m p q : ℕ} : TFSpec K m p q → TF K m p q
  | .precomputed t => t
  | .generator g => g m

/-- np.fft.ifftshift applied along the grid axes of the resolved transfer
function (line 48). -/
def TF.ifftshift {m p q : ℕ} : TF K m p q → TF K m p q
  | .scalar h t => .scalar h (ifftshift1 t)
  | .matrix t => .matrix (ifftshift1 t)

/-- Static configuration of a FourierFilter, as assembled by the
constructor (lines 28-39): the input grid, the internal (padded) grid
produced by the FFT engine, the cutout region, the user transfer function,
and the root of unity modelling the FFT kernel of the internal grid. -/
structure FourierFilter (K : Type) (n m p q : ℕ) where
  input_grid : Grid1 K
  internal_grid : Grid1 K
  cutout : Cutout n m
  ω : K
  transfer_function : TFSpec K m p q

/-- The mutable caches of a FourierFilter: the ifftshift-ed transfer
function samples with their dtype (self._transfer_function), and the shape
and dtype of the scratch buffer (self.internal_array; its contents are
immaterial because _operation zeroes it before every use). -/
structure FilterCache (K : Type) (m p q : ℕ) where
  tf : Option (TF K m p q × DType)
  internalArray : Option (List ℕ × DType)

/-- Metadata of an input field: the leading tensor shape, the grid
dimensionality and the dtype, which is what _compute_functions inspects. -/
structure FieldDesc where
  tensorShape : List ℕ
  gridNdim : ℕ
  dtype : DType
deriving DecidableEq

/-- The transfer-function cache test of line 42: recompute exactly when
the cache is empty or its dtype differs from the field's dtype. -/
def tfNeedsRecompute {m p q : ℕ} (c : Option (TF K m p q × DType)) (d : DType) : Bool :=
  match c with
  | Option.none => true
  | Option.some (_, dt) => dt != d

/-- The scratch-buffer test of lines 51-54: reallocate when the buffer
does not exist, its dimensionality differs from grid ndim plus tensor
order, its dtype differs, or its leading dimensions differ from the
field's tensor shape. -/
def internalNeedsRecompute (c : Option (List ℕ × DType)) (fd : FieldDesc) : Bool :=
  match c with
  | Option.none => true
  | Option.some (sh, dt) =>
      (sh.length != fd.gridNdim + fd.tensorShape.length)
        || (dt != fd.dtype)
        || (sh.take fd.tensorShape.length != fd.tensorShape)

/-- FourierFilter._compute_functions (lines 41-57): lazily recompute the
cached transfer function (resolve, ifftshift once, cast to the field's
dtype) and reallocate the scratch buffer (internal_grid.zeros with the
field's tensor shape and dtype; for the 1-D internal grid of the model the
allocated shape is tensorShape ++ [m]). -/
def FourierFilter.computeFunctions {n m p q : ℕ} (flt : FourierFilter K n m p q)
    (st : FilterCache K m p q) (fd : FieldDesc) : FilterCache K m p q :=
  { tf :=
      if tfNeedsRecompute st.tf fd.dtype then
        Option.some (flt.transfer_function.resolve.ifftshift, fd.dtype)
      else st.tf
    internalArray :=
      if internalNeedsRecompute st.internalArray fd then
        Option.some (fd.tensorShape ++ [m], fd.dtype)
      else st.internalArray }

/-- The pipeline of FourierFilter._operation before the final crop:
pad (lines 106-112), forward FFT (line 118), transfer-function
application (lines 120-140), inverse FFT (line 145). -/
def FourierFilter.preCrop {n m p q : ℕ} (flt : FourierFilter K n m p q)
    (t : TF K m p q) (adjoint : Bool) (f : Fin (cond adjoint p q) → Fin n → K) :
    Fin (cond adjoint q p) → Fin m → K :=
  ifftn flt.ω (t.apply adjoint (fftn flt.ω (fun i => flt.cutout.pad (f i))))

/-- FourierFilter._operation (lines 89-153) at the level of sample
values, parameterized by the cached (FFT-ordered) transfer function t. -/
def FourierFilter.operation {n m p q : ℕ} (flt : FourierFilter K n m p q)
    (t : TF K m p q) (adjoint : Bool) (f : Fin (cond adjoint p q) → Fin n → K) :
    Fin (cond adjoint q p) → Fin n → K :=
  fun i => flt.cutout.crop (flt.preCrop t adjoint f i)

/-- FourierFilter.forward (lines 59-72): _operation with adjoint False. -/
def FourierFilter.forward {n m p q : ℕ} (flt : FourierFilter K n m p q)
    (t : TF K m p q) (f : Fin q → Fin n → K) : Fin p → Fin n → K :=
  flt.operation t false f

/-- FourierFilter.backward (lines 74-87): _operation with adjoint True. -/
def FourierFilter.backward {n m p q : ℕ} (flt : FourierFilter K n m p q)
    (t : TF K m p q) (f : Fin p → Fin n → K) : Fin q → Fin n → K :=
  flt.operation t true f

/-- The Field returned by _operation: the result samples wrapped with the
filter's input grid (line 153). -/
def FourierFilter.operationField {n m p q : ℕ} (flt : FourierFilter K n m p q)
    (t : TF K m p q) (adjoint : Bool) (f : Fin (cond adjoint p q) → Fin n → K) :
    Grid1 K × (Fin (cond adjoint q p) → Fin n → K) :=
  (flt.input_grid, flt.operation t adjoint f)

/-- Line 115: the overwrite flag handed to the forward FFT; the buffer may
be overwritten only when the input was first copied into the internal
scratch. -/
def FourierFilter.forwardOverwriteX {n m p q : ℕ} (flt : FourierFilter K n m p q) : Bool :=
  flt.cutout.isSome

/-- Line 143: the inverse FFT is always allowed to overwrite, because
after the transfer-function multiplication the buffer is fresh. -/
def FourierFilter.inverseOverwriteX : Bool := true

/-- _operation instrumented with the caller's field storage. Buffers are
modelled by their contents; an FFT call whose overwrite flag is set writes
its output back into the buffer it was handed; in the cutout-is-None
branch the array handed to the forward FFT aliases the caller's field
(line 107), while in the padded branch it is the internal scratch
(line 109). Returns the result samples together with the final contents of
the caller's storage. -/
def FourierFilter.operationMem {n m p q : ℕ} (flt : FourierFilter K n m p q)
    (t : TF K m p q) (adjoint : Bool) (f : Fin (cond adjoint p q) → Fin n → K) :
    (Fin (cond adjoint q p) → Fin n → K) × (Fin (cond adjoint p q) → Fin n → K) :=
  match flt.cutout with
  | Cutout.none h =>
      let g1 := fftn flt.ω (fun i x => f i (Fin.cast h x))
      let caller1 := if flt.forwardOverwriteX then (fun i x => g1 i (Fin.cast h.symm x)) else f
      let g2 := t.apply adjoint g1
      let g3 := ifftn flt.ω g2
      ((fun i x => g3 i (Fin.cast h.symm x)), caller1)
  | Cutout.some o ho =>
      let g1 := fftn flt.ω (fun i => (Cutout.some o ho).pad (f i))
      let g2 := t.apply adjoint g1
      let g3 := ifftn flt.ω g2
      ((fun i => (Cutout.some o ho).crop (g3 i)), f)

/-- Reading the cached transfer function back out of the cache. -/
def FilterCache.cachedTF {m p q : ℕ} (st : FilterCache K m p q) : TF K m p q :=
  (st.tf.map Prod.fst).getD (TF.matrix fun _ _ _ => 0)

/-- FourierFilter._operation including its mutable-state effect: on every
call _compute_functions first updates the two caches (line 104), then the
value pipeline runs with the cached transfer function. -/
def FourierFilter.operationS {n m p q : ℕ} (flt : FourierFilter K n m p q)
    (st : FilterCache K m p q) (fd : FieldDesc) (adjoint : Bool)
    (f : Fin (cond adjoint p q) → Fin n → K) :
    FilterCache K m p q × (Fin (cond adjoint q p) → Fin n → K) :=
  let st1 := flt.computeFunctions st fd
  (st1, flt.operation st1.cachedTF adjoint f)

/-- Stateful FourierFilter.forward. -/
def FourierFilter.forwardS {n m p q : ℕ} (flt : FourierFilter K n m p q)
    (st : FilterCache K m p q) (fd : FieldDesc) (f : Fin q → Fin n → K) :
    FilterCache K m p q × (Fin p → Fin n → K) :=
  flt.operationS st fd false f

/-- Stateful FourierFilter.backward. -/
def FourierFilter.backwardS {n m p q : ℕ} (flt : FourierFilter K n m p q)
    (st : FilterCache K m p q) (fd : FieldDesc) (f : Fin p → Fin n → K) :
    FilterCache K m p q × (Fin q → Fin n → K) :=
  flt.operationS st fd true f

/-- Modelled from the spec: the frequency coordinates along one axis of
the grid returned by make_fft_grid (fast_fourier_transform.py is not among
the source files): centered frequencies with spacing twoPi/(n*d) for n
samples of spacing d, where the parameter twoPi stands for the constant
2*pi. -/
def makeFFTCoords (twoPi : K) (nn : ℕ) (d : K) : Fin nn → K :=
  fun j => twoPi * ((j.val : K) - ((nn / 2 : ℕ) : K)) / ((nn : K) * d)

/-- A regularly spaced 2-D grid: sizes, origins and spacings of the two
axes. Shaped arrays over it have shape (ny, nx), axis 0 of the grid (x)
varying along the last array axis. -/
structure RegGrid2 (K : Type) where
  nx : ℕ
  ny : ℕ
  x0 : K
  dx : K
  y0 : K
  dy : K
deriving DecidableEq

/-- separated_coords along grid axis 0 (the x axis). -/
def RegGrid2.xc (g : RegGrid2 K) (j : Fin g.nx) : K := g.x0 + (j.val : K) * g.dx

/-- separated_coords along grid axis 1 (the y axis). -/
def RegGrid2.yc (g : RegGrid2 K) (j : Fin g.ny) : K := g.y0 + (j.val : K) * g.dy

/-- The grid handed to the FourierShear constructor: the dimensionality
and regularity attributes inspected by the validation at line 183,
together with the 2-D regular payload used when the check passes. -/
structure GridIn (K : Type) where
  ndim : ℕ
  is_regular : Bool
  reg2 : RegGrid2 K

/-- The state of a FourierShear object: the stored input grid, the shear
dimension, the shear coefficient and the cached phase-ramp filter, stored
shaped as (ny, nx). -/
structure ShearState (K : Type) where
  grid : RegGrid2 K
  dim : Fin 2
  shear : K
  filter : Fin grid.ny → Fin grid.nx → K

/-- The filter recomputation in the shear property setter (lines 206-219):
np.exp(-1j * shear * np.outer(y, fx)) where fx is the ifftshift-ed
frequency coordinate of the sheared axis and y the coordinate of the
perpendicular axis, transposed when shearing axis 1. The parameters cexp
and Iu stand for the complex exponential and the imaginary unit. -/
def FourierShear.computeFilter (cexp : K → K) (Iu twoPi : K) (g : RegGrid2 K)
    (dim : Fin 2) (s : K) : Fin g.ny → Fin g.nx → K :=
  if dim = (0 : Fin 2) then
    fun iy ix => cexp (-Iu * s * (g.yc iy * ifftshift1 (makeFFTCoords twoPi g.nx g.dx) ix))
  else
    fun iy ix => cexp (-Iu * s * (g.xc ix * ifftshift1 (makeFFTCoords twoPi g.ny g.dy) iy))

/-- The shear property setter (lines 206-221): recompute the cached filter
and store the new shear coefficient; nothing else changes. -/
def ShearState.setShear (cexp : K → K) (Iu twoPi : K) (st : ShearState K) (s : K) :
    ShearState K :=
  { st with
    shear := s
    filter := FourierShear.computeFilter cexp Iu twoPi st.grid st.dim s }

/-- FourierShear.__init__ (lines 182-188): raise ValueError unless the
input grid is regular and 2-D; then store the grid and the shear
dimension, and assign the shear property (which computes the filter). -/
def FourierShear.init (cexp : K → K) (Iu twoPi : K) (g : GridIn K) (shear : K)
    (shear_dim : Fin 2) : Except String (ShearState K) :=
  if !g.is_regular || g.ndim != 2 then
    Except.error "ValueError: The input grid should be 2D and regularly spaced."
  else
    Except.ok
      { grid := g.reg2
        dim := shear_dim
        shear := shear
        filter := FourierShear.computeFilter cexp Iu twoPi g.reg2 shear_dim shear }

/-- The value pipeline of FourierShear._operation (lines 259-271): a 1-D
FFT along axis -shear_dim - 1, elementwise multiplication by the filter
(its conjugate under adjoint), a 1-D inverse FFT along the same axis, and
a reshape to the flattening of the field's grid. The roots wx and wy model
the FFT kernels for the two axis lengths. -/
def FourierShear.operation (wx wy : K) (st : ShearState K) (adjoint : Bool)
    (f : Fin st.grid.ny → Fin st.grid.nx → K) : Fin st.grid.ny → Fin st.grid.nx → K :=
  if st.dim = (0 : Fin 2) then
    let g1 := fun iy => dft wx (f iy)
    let g2 := fun iy ix => g1 iy ix * cond adjoint (star (st.filter iy ix)) (st.filter iy ix)
    fun iy => idft wx (g2 iy)
  else
    let g1 := fun ix => dft wy (fun iy => f iy ix)
    let g2 := fun ix iy => g1 ix iy * cond adjoint (star (st.filter iy ix)) (st.filter iy ix)
    fun iy ix => idft wy (g2 ix) iy

/-- The module-level lookup of the name _use_mkl performed first by
FourierShear._operation (line 254). fourier_operations.py neither defines
_use_mkl nor imports it (lines 1-5 bring in only numpy,
FastFourierTransform, make_fft_grid, Field, field_dot,
field_conjugate_transpose and _fft_module), so the lookup finds nothing. -/
def use_mkl_lookup : Option Bool := Option.none

/-- FourierShear._operation as executed (lines 253-271): evaluating the
undefined name _use_mkl raises NameError before any FFT work; were the
name bound, the value pipeline would run (the overwrite keyword it guards
does not affect values). -/
def FourierShear.operationCoded (wx wy : K) (st : ShearState K) (adjoint : Bool)
    (f : Fin st.grid.ny → Fin st.grid.nx → K) :
    Except String (Fin st.grid.ny → Fin st.grid.nx → K) :=
  match use_mkl_lookup with
  | Option.none => Except.error "NameError: name _use_mkl is not defined"
  | Option.some _ => Except.ok (FourierShear.operation wx wy st adjoint f)

/-- Python exception values arising in optical_element.py: the
NotImplementedError raised by the base forward, and the effect of the
raise statement applied to the value returned by an overriding forward. -/
inductive PyExc (V : Type) where
  | notImplementedError
  | raisedValue (v : V)

/-- An optical element (optical_element.py, lines 1-12): a forward and a
backward propagation, each of which may raise. -/
structure OpticalElement (W V : Type) where
  forward : W → Except (PyExc V) V
  backward : W → Except (PyExc V) V

/-- OpticalElement.__call__ (lines 2-3): raise self.forward(wavefront).
If evaluating forward raises, that exception propagates; if forward
returns a value, the raise statement throws it instead of returning it. -/
def OpticalElement.call {W V : Type} (el : OpticalElement W V) (w : W) :
    Except (PyExc V) V :=
  match el.forward w with
  | Except.error e => Except.error e
  | Except.ok v => Except.error (PyExc.raisedValue v)

/-- The OpticalElement base class itself (lines 5-9): forward and backward
raise NotImplementedError. -/
def OpticalElement.base (W V : Type) : OpticalElement W V :=
  { forward := fun _ => Except.error PyExc.notImplementedError
    backward := fun _ => Except.error PyExc.notImplementedError }

/-- A transfer function is unitary at every sample point: unit modulus for
a scalar field, per-sample unitary matrices for a matrix field. -/
def TF.unitary {m p q : ℕ} : TF K m p q → Prop
  | .scalar _ t => ∀ x, star (t x) * t x = 1
  | .matrix t =>
      (∀ (x : Fin m) (i j : Fin q),
        ∑ k : Fin p, star (t x k i) * t x k j = if i = j then (1 : K) else 0)
      ∧ (∀ (x : Fin m) (i j : Fin p),
        ∑ k : Fin q, t x i k * star (t x j k) = if i = j then (1 : K) else 0)

/-! Concrete instances used to evaluate the theorems on explicit inputs. -/

/-- The constant scalar transfer-function samples 2 (conjugate-symmetric
but not unitary). -/
def tTwo : Fin 2 → ℚ := fun _ => 2

/-- The scalar transfer function of constant value 2. -/
def tfTwo : TF ℚ 2 1 1 := TF.scalar rfl tTwo

/-- The constant scalar transfer-function samples 1. -/
def tOne : Fin 2 → ℚ := fun _ => 1

/-- The identity (all-ones) scalar transfer function. -/
def tfOne : TF ℚ 2 1 1 := TF.scalar rfl tOne

/-- A constant input field of ones on a 2-point grid. -/
def fOnes : Fin 1 → Fin 2 → ℚ := fun _ _ => 1

/-- A concrete unpadded FourierFilter on a 2-point grid, with the FFT
kernel -1 (the primitive square root of unity). -/
def flt2 : FourierFilter ℚ 2 2 1 1 :=
  { input_grid := { size := 2, x0 := -1, delta := 1 }
    internal_grid := { size := 2, x0 := -3, delta := 3 }
    cutout := Cutout.none rfl
    ω := -1
    transfer_function := TFSpec.precomputed tfTwo }

/-- Unit-modulus (but sign-alternating) scalar transfer-function samples. -/
def tPad : Fin 2 → ℚ := fun x => if x.val = 0 then 1 else -1

/-- The unitary scalar transfer function with samples tPad. -/
def tfPad : TF ℚ 2 1 1 := TF.scalar rfl tPad

/-- A concrete FourierFilter with zero-padding: a 1-point input grid
inside a 2-point internal grid. -/
def fltPad : FourierFilter ℚ 1 2 1 1 :=
  { input_grid := { size := 1, x0 := 0, delta := 1 }
    internal_grid := { size := 2, x0 := 0, delta := 1/2 }
    cutout := Cutout.some 0 (by omega)
    ω := -1
    transfer_function := TFSpec.precomputed tfPad }

/-- The one-sample field of value 1. -/
def fOne1 : Fin 1 → Fin 1 → ℚ := fun _ _ => 1

/-- Concrete matrix transfer-function samples. -/
def tM : Fin 2 → Fin 2 → Fin 2 → ℚ := fun x i j => ((x.val + i.val + j.val : ℕ) : ℚ)

/-- A concrete matrix transfer function. -/
def tfM : TF ℚ 2 2 2 := TF.matrix tM

/-- A concrete 2 x 2 regular grid. -/
def g22 : RegGrid2 ℚ := { nx := 2, ny := 2, x0 := -1/2, dx := 1, y0 := -1/2, dy := 1 }

/-- A concrete shear state over g22, shearing along axis 0. -/
def st0 : ShearState ℚ := { grid := g22, dim := 0, shear := 0, filter := fun _ _ => 1 }

/-- A 3-D (hence invalid for FourierShear) grid descriptor. -/
def gBad : GridIn ℚ := { ndim := 3, is_regular := true, reg2 := g22 }

/-- A concrete optical element whose forward returns normally. -/
def el1 : OpticalElement ℕ ℕ :=
  { forward := fun w => Except.ok (w + 1)
    backward := fun _ => Except.error PyExc.notImplementedError }

/-! Helper lemmas. -/

/-- Without padding, zero-extension after cropping is the identity. -/
lemma pad_crop_none {n m : ℕ} (h : m = n) (g : Fin m → K) :
    (Cutout.none h).pad ((Cutout.none h).crop g) = g := rfl

/-- Without padding, cropping after zero-extension is the identity. -/
lemma crop_pad_none {n m : ℕ} (h : m = n) (f : Fin n → K) :
    (Cutout.none h).crop ((Cutout.none h).pad f) = f := rfl

/-- Componentwise fft inverts componentwise ifft. -/
lemma fftn_ifftn {m : ℕ} {α : Type} {ω : K} (hω : IsPrimitiveRoot ω m)
    (hm : (m : K) ≠ 0) (g : α → Fin m → K) : fftn ω (ifftn ω g) = g :=
  funext fun i => dft_idft hω hm (g i)

/-- Componentwise ifft inverts componentwise fft. -/
lemma ifftn_fftn {m : ℕ} {α : Type} {ω : K} (hω : IsPrimitiveRoot ω m)
    (hm : (m : K) ≠ 0) (g : α → Fin m → K) : ifftn ω (fftn ω g) = g :=
  funext fun i => idft_dft hω hm (g i)

/-- Adjoint transfer application undoes plain application for a unitary
transfer function. -/
lemma TF.apply_false_then_true {m p q : ℕ} (t : TF K m p q) (ht : t.unitary)
    (f : Fin q → Fin m → K) : t.apply true (t.apply false f) = f := by
  cases t with
  | scalar h0 t0 =>
    have ht' : ∀ x, star (t0 x) * t0 x = 1 := ht
    funext i x
    simp only [TF.apply]
    rw [mul_assoc, mul_comm (t0 x) (star (t0 x)), ht' x, mul_one]
    rfl
  | matrix t0 =>
    obtain ⟨hL, _⟩ := ht
    funext i x
    simp only [TF.apply, field_dot, field_conjugate_transpose]
    calc ∑ j : Fin p, star (t0 x j i) * ∑ k : Fin q, t0 x j k * f k x
        = ∑ j : Fin p, ∑ k : Fin q, star (t0 x j i) * t0 x j k * f k x := by
          refine Finset.sum_congr rfl fun j _ => ?_
          rw [Finset.mul_sum]
          exact Finset.sum_congr rfl fun k _ => (mul_assoc _ _ _).symm
      _ = ∑ k : Fin q, (∑ j : Fin p, star (t0 x j i) * t0 x j k) * f k x := by
          rw [Finset.sum_comm]
          exact Finset.sum_congr rfl fun k _ => (Finset.sum_mul _ _ _).symm
      _ = ∑ k : Fin q, (if i = k then (1 : K) else 0) * f k x := by
          exact Finset.sum_congr rfl fun k _ => by rw [hL x i k]
      _ = f i x := by simp

/-- Plain transfer application undoes adjoint application for a unitary
transfer function. -/
lemma TF.apply_true_then_false {m p q : ℕ} (t : TF K m p q) (ht : t.unitary)
    (g : Fin p → Fin m → K) : t.apply false (t.apply true g) = g := by
  cases t with
  | scalar h0 t0 =>
    have ht' : ∀ x, star (t0 x) * t0 x = 1 := ht
    funext i x
    simp only [TF.apply]
    rw [mul_assoc, ht' x, mul_one]
    rfl
  | matrix t0 =>
    obtain ⟨_, hR⟩ := ht
    funext i x
    simp only [TF.apply, field_dot, field_conjugate_transpose]
    calc ∑ j : Fin q, t0 x i j * ∑ k : Fin p, star (t0 x k j) * g k x
        = ∑ j : Fin q, ∑ k : Fin p, t0 x i j * star (t0 x k j) * g k x := by
          refine Finset.sum_congr rfl fun j _ => ?_
          rw [Finset.mul_sum]
          exact Finset.sum_congr rfl fun k _ => (mul_assoc _ _ _).symm
      _ = ∑ k : Fin p, (∑ j : Fin q, t0 x i j * star (t0 x k j)) * g k x := by
          rw [Finset.sum_comm]
          exact Finset.sum_congr rfl fun k _ => (Finset.sum_mul _ _ _).symm
      _ = ∑ k : Fin p, (if i = k then (1 : K) else 0) * g k x := by
          exact Finset.sum_congr rfl fun k _ => by rw [hR x i k]
      _ = g i x := by simp

/-- -1 is a primitive square root of unity in ℚ. -/
lemma neg_one_primitive_root_two : IsPrimitiveRoot (-1 : ℚ) 2 := by
  constructor
  · norm_num
  · intro l hl
    rcases Nat.even_or_odd l with he | ho
    · exact he.two_dvd
    · exfalso
      rw [ho.neg_one_pow] at hl
      norm_num at hl

/-! Claim theorems. -/

/-- C1: the claim states that FourierShear.forward and backward run the
1-D FFT / filter multiply / inverse FFT pipeline and complete without
raising. The code cannot: the first statement of FourierShear._operation
evaluates the name _use_mkl, which fourier_operations.py neither defines
nor imports, so every call raises NameError before any FFT work. -/
theorem fourierShear_operation_name_error {K : Type} [Field K] [StarRing K]
    (wx wy : K) (st : ShearState K) (adjoint : Bool)
    (f : Fin st.grid.ny → Fin st.grid.nx → K) :
    FourierShear.operationCoded wx wy st adjoint f
      = Except.error "NameError: name _use_mkl is not defined" := rfl

/-- C2 (counterexample): a Hermitian (conjugate-symmetric) scalar transfer
function does not give an adjoint round trip: the constant transfer
function 2 is its own conjugate yet backward(forward(f)) = 4 f. Moreover
even a unitary scalar transfer function fails the round trip once
zero-padding is in play, because energy moved outside the cutout region is
lost to the crop. -/
theorem fourierFilter_hermitian_roundtrip_counterexample :
    ((fun x : Fin 2 => star (tTwo x)) = tTwo
      ∧ flt2.backward tfTwo (flt2.forward tfTwo fOnes) ≠ fOnes)
    ∧ (TF.unitary tfPad
      ∧ fltPad.backward tfPad (fltPad.forward tfPad fOne1) ≠ fOne1) := by
  refine ⟨⟨funext fun x => star_trivial _, ?_⟩, ⟨?_, ?_⟩⟩
  · intro hcon
    have h0 := congrFun (congrFun hcon 0) 0
    have hv : flt2.backward tfTwo (flt2.forward tfTwo fOnes) 0 0 = 4 := by
      unfold FourierFilter.backward FourierFilter.forward FourierFilter.operation
        FourierFilter.preCrop flt2 tfTwo tTwo fOnes fftn ifftn dft idft
      norm_num [TF.apply, Cutout.pad, Cutout.crop, Fin.sum_univ_two]
    rw [hv] at h0
    have h1 : fOnes 0 0 = 1 := rfl
    rw [h1] at h0
    norm_num at h0
  · intro x
    fin_cases x <;> norm_num [tPad]
  · intro hcon
    have h0 := congrFun (congrFun hcon 0) 0
    have hv : fltPad.backward tfPad (fltPad.forward tfPad fOne1) 0 0 = 0 := by
      unfold FourierFilter.backward FourierFilter.forward FourierFilter.operation
        FourierFilter.preCrop fltPad tfPad tPad fOne1 fftn ifftn dft idft
      norm_num [TF.apply, Cutout.pad, Cutout.crop, Fin.sum_univ_two]
    rw [hv] at h0
    have h1 : fOne1 0 0 = 1 := rfl
    rw [h1] at h0
    norm_num at h0

/-- C2 (amended): for a transfer function that is unitary at every sample
point (unit modulus scalar, or per-sample unitary matrices) and a filter
without zero-padding (cutout is None), backward after forward and forward
after backward both return the original field exactly in the exact
arithmetic model. -/
theorem fourierFilter_unitary_roundtrip {K : Type} [Field K] [StarRing K]
    {n m p q : ℕ} (h : m = n) (flt : FourierFilter K n m p q)
    (hcut : flt.cutout = Cutout.none h) (hω : IsPrimitiveRoot flt.ω m)
    (hm : (m : K) ≠ 0) (t : TF K m p q) (ht : t.unitary)
    (f : Fin q → Fin n → K) (g : Fin p → Fin n → K) :
    flt.backward t (flt.forward t f) = f ∧ flt.forward t (flt.backward t g) = g := by
  constructor
  · show flt.operation t true (flt.operation t false f) = f
    unfold FourierFilter.operation FourierFilter.preCrop
    simp only [hcut]
    have h1 : (fun j => (Cutout.none h).pad ((Cutout.none h).crop
          ((ifftn flt.ω (t.apply false (fftn flt.ω (fun j2 => (Cutout.none h).pad (f j2))))) j)))
        = ifftn flt.ω (t.apply false (fftn flt.ω (fun j2 => (Cutout.none h).pad (f j2)))) :=
      funext fun j => pad_crop_none h _
    simp only [Bool.cond_true, Bool.cond_false] at h1 ⊢
    rw [h1, fftn_ifftn hω hm, TF.apply_false_then_true t ht, ifftn_fftn hω hm]
    funext i
    exact crop_pad_none h (f i)
  · show flt.operation t false (flt.operation t true g) = g
    unfold FourierFilter.operation FourierFilter.preCrop
    simp only [hcut]
    have h1 : (fun j => (Cutout.none h).pad ((Cutout.none h).crop
          ((ifftn flt.ω (t.apply true (fftn flt.ω (fun j2 => (Cutout.none h).pad (g j2))))) j)))
        = ifftn flt.ω (t.apply true (fftn flt.ω (fun j2 => (Cutout.none h).pad (g j2)))) :=
      funext fun j => pad_crop_none h _
    simp only [Bool.cond_true, Bool.cond_false] at h1 ⊢
    rw [h1, fftn_ifftn hω hm, TF.apply_true_then_false t ht, ifftn_fftn hω hm]
    funext i
    exact crop_pad_none h (g i)

/-- C3: the transfer-function application of FourierFilter._operation
dispatches on the number of extra axes: exactly two extra axes means a
matrix field, applied by per-sample matrix-vector contraction (the
conjugate transpose of the matrix under adjoint); otherwise the scalar
field multiplies elementwise (its complex conjugate under adjoint). -/
theorem fourierFilter_dispatch {K : Type} [Field K] [StarRing K] {m p q : ℕ}
    (tf : TF K m p q) :
    (tf.tensorOrder = 2 ↔ ∃ t0, tf = TF.matrix t0)
    ∧ (∀ t0, tf = TF.matrix t0 →
        tf.apply false = field_dot t0
          ∧ tf.apply true = field_dot (field_conjugate_transpose t0))
    ∧ (∀ h0 t0, tf = TF.scalar h0 t0 →
        (∀ (f : Fin q → Fin m → K) i x, tf.apply false f i x = f (Fin.cast h0 i) x * t0 x)
          ∧ (∀ (f : Fin p → Fin m → K) i x,
              tf.apply true f i x = f (Fin.cast h0.symm i) x * star (t0 x))) := by
  refine ⟨?_, ?_, ?_⟩
  · cases tf with
    | scalar h0 t0 => simp [TF.tensorOrder]
    | matrix t0 => exact ⟨fun _ => ⟨t0, rfl⟩, fun _ => rfl⟩
  · intro t0 ht0
    subst ht0
    exact ⟨rfl, rfl⟩
  · intro h0 t0 ht0
    subst ht0
    exact ⟨fun f i x => rfl, fun f i x => rfl⟩

/-- C4: neither forward nor backward mutates the caller's field storage:
the forward FFT gets overwrite false exactly when the buffer may alias the
caller's field (cutout is None), overwrite true only on the freshly copied
cutout buffer, and the inverse FFT (running on a buffer that can no longer
alias the input) always gets overwrite true; under these flags the
caller's storage is returned unchanged and the instrumented pipeline
computes the same values as the pure one. -/
theorem fourierFilter_no_input_mutation {K : Type} [Field K] [StarRing K]
    {n m p q : ℕ} (flt : FourierFilter K n m p q) (t : TF K m p q)
    (adjoint : Bool) (f : Fin (cond adjoint p q) → Fin n → K) :
    (flt.operationMem t adjoint f).2 = f
    ∧ (flt.operationMem t adjoint f).1 = flt.operation t adjoint f
    ∧ flt.forwardOverwriteX = flt.cutout.isSome
    ∧ FourierFilter.inverseOverwriteX = true := by
  obtain ⟨ig, intg, c, w, tfs⟩ := flt
  refine ⟨?_, ?_, rfl, rfl⟩
  · cases c with
    | none h => rfl
    | some o ho => rfl
  · cases c with
    | none h => rfl
    | some o ho => rfl

/-- C5: the _operation result is the inverse FFT output cropped back to
the cutout region and wrapped with the filter's input grid (never the
internal padded grid when the two differ), and a scalar transfer function
preserves the leading tensor shape of the input field. -/
theorem fourierFilter_output_wrapping {K : Type} [Field K] [StarRing K]
    {n m p q : ℕ} (flt : FourierFilter K n m p q) (t : TF K m p q)
    (adjoint : Bool) (f : Fin (cond adjoint p q) → Fin n → K) :
    ((flt.operationField t adjoint f).1 = flt.input_grid)
    ∧ (flt.input_grid ≠ flt.internal_grid →
        (flt.operationField t adjoint f).1 ≠ flt.internal_grid)
    ∧ (flt.operation t adjoint f = fun i => flt.cutout.crop (flt.preCrop t adjoint f i))
    ∧ (∀ h0 t0, t = TF.scalar h0 t0 → cond adjoint q p = cond adjoint p q) := by
  refine ⟨rfl, fun hne => hne, rfl, ?_⟩
  intro h0 t0 _
  cases h0
  rfl

/-- C6: on every forward/backward call the cached transfer-function array
is recomputed exactly when it is absent or its dtype differs from the
field's dtype; on recomputation the user transfer function is resolved (a
generator is invoked with the internal grid), ifftshift-ed once along the
grid axes and cast to the field's dtype. -/
theorem fourierFilter_tf_cache {K : Type} [Field K] [StarRing K]
    {n m p q : ℕ} (flt : FourierFilter K n m p q) (st : FilterCache K m p q)
    (fd : FieldDesc) (f1 : Fin q → Fin n → K) (f2 : Fin p → Fin n → K) :
    ((flt.forwardS st fd f1).1 = flt.computeFunctions st fd)
    ∧ ((flt.backwardS st fd f2).1 = flt.computeFunctions st fd)
    ∧ ((flt.computeFunctions st fd).tf
        = if tfNeedsRecompute st.tf fd.dtype
          then Option.some (flt.transfer_function.resolve.ifftshift, fd.dtype)
          else st.tf)
    ∧ (tfNeedsRecompute st.tf fd.dtype = true
        ↔ st.tf = Option.none
          ∨ ∃ t0 dt, st.tf = Option.some (t0, dt) ∧ dt ≠ fd.dtype)
    ∧ (∀ g0 : (mm : ℕ) → TF K mm p q,
        (TFSpec.generator g0 : TFSpec K m p q).resolve = g0 m) := by
  refine ⟨rfl, rfl, rfl, ?_, fun g0 => rfl⟩
  cases hst : st.tf with
  | none => simp [tfNeedsRecompute]
  | some pair =>
    obtain ⟨t0, dt⟩ := pair
    simp only [tfNeedsRecompute, bne_iff_ne, ne_eq]
    constructor
    · intro hne
      exact Or.inr ⟨t0, dt, rfl, hne⟩
    · rintro (hcon | ⟨t1, dt1, heq, hne⟩)
      · exact absurd hcon (by simp)
      · simp only [Option.some.injEq, Prod.mk.injEq] at heq
        obtain ⟨-, rfl⟩ := heq
        exact hne

/-- C7: on every forward/backward call the scratch buffer is reallocated
exactly when it does not exist, its number of dimensions differs from the
grid dimensionality plus the tensor order, its dtype differs, or its
leading dimensions differ from the field's tensor shape; otherwise the
existing buffer is reused. -/
theorem fourierFilter_internal_array_cache {K : Type} [Field K] [StarRing K]
    {n m p q : ℕ} (flt : FourierFilter K n m p q) (st : FilterCache K m p q)
    (fd : FieldDesc) (adjoint : Bool) (f : Fin (cond adjoint p q) → Fin n → K) :
    ((flt.operationS st fd adjoint f).1 = flt.computeFunctions st fd)
    ∧ ((flt.computeFunctions st fd).internalArray
        = if internalNeedsRecompute st.internalArray fd
          then Option.some (fd.tensorShape ++ [m], fd.dtype)
          else st.internalArray)
    ∧ (internalNeedsRecompute st.internalArray fd = true
        ↔ st.internalArray = Option.none
          ∨ ∃ sh dt, st.internalArray = Option.some (sh, dt)
              ∧ (sh.length ≠ fd.gridNdim + fd.tensorShape.length
                ∨ dt ≠ fd.dtype
                ∨ sh.take fd.tensorShape.length ≠ fd.tensorShape)) := by
  refine ⟨rfl, rfl, ?_⟩
  cases hst : st.internalArray with
  | none => simp [internalNeedsRecompute]
  | some pair =>
    obtain ⟨sh, dt⟩ := pair
    simp only [internalNeedsRecompute, Bool.or_eq_true, bne_iff_ne, ne_eq]
    constructor
    · intro hne
      exact Or.inr ⟨sh, dt, rfl, by tauto⟩
    · rintro (hcon | ⟨sh1, dt1, heq, hne⟩)
      · exact absurd hcon (by simp)
      · simp only [Option.some.injEq, Prod.mk.injEq] at heq
        obtain ⟨rfl, rfl⟩ := heq
        tauto

/-- C8: assigning the shear property recomputes the cached filter as
exp(-i * shear * outer(y, fx)) with fx the ifftshift-ed frequency
coordinate of the sheared axis and y the perpendicular-axis coordinate,
transposed when shearing axis 1, and changes nothing besides the cached
filter and the stored shear value. -/
theorem fourierShear_set_shear {K : Type} [Field K] [StarRing K]
    (cexp : K → K) (Iu twoPi : K) (st : ShearState K) (s : K) :
    ((st.setShear cexp Iu twoPi s).shear = s)
    ∧ ((st.setShear cexp Iu twoPi s).grid = st.grid)
    ∧ ((st.setShear cexp Iu twoPi s).dim = st.dim)
    ∧ (st.dim = (0 : Fin 2) →
        (st.setShear cexp Iu twoPi s).filter
          = fun iy ix => cexp (-Iu * s
              * (st.grid.yc iy * ifftshift1 (makeFFTCoords twoPi st.grid.nx st.grid.dx) ix)))
    ∧ (st.dim = (1 : Fin 2) →
        (st.setShear cexp Iu twoPi s).filter
          = fun iy ix => (fun a b => cexp (-Iu * s
              * (st.grid.xc a * ifftshift1 (makeFFTCoords twoPi st.grid.ny st.grid.dy) b))) ix iy) := by
  refine ⟨rfl, rfl, rfl, ?_, ?_⟩
  · intro h0
    simp [ShearState.setShear, FourierShear.computeFilter, h0]
  · intro h1
    simp [ShearState.setShear, FourierShear.computeFilter, h1]

/-- C9: FourierShear construction raises the ValueError exactly when the
grid is not regular or not 2-D, and forward/backward never raise that
validation error themselves. -/
theorem fourierShear_init_validation {K : Type} [Field K] [StarRing K]
    (cexp : K → K) (Iu twoPi : K) (g : GridIn K) (s : K) (d : Fin 2)
    (wx wy : K) (st : ShearState K) (adjoint : Bool)
    (f : Fin st.grid.ny → Fin st.grid.nx → K) :
    ((FourierShear.init cexp Iu twoPi g s d).isOk = true
      ↔ (g.is_regular = true ∧ g.ndim = 2))
    ∧ (¬(g.is_regular = true ∧ g.ndim = 2) →
        FourierShear.init cexp Iu twoPi g s d
          = Except.error "ValueError: The input grid should be 2D and regularly spaced.")
    ∧ (FourierShear.operationCoded wx wy st adjoint f
        ≠ Except.error "ValueError: The input grid should be 2D and regularly spaced.") := by
  refine ⟨?_, ?_, ?_⟩
  · unfold FourierShear.init
    by_cases hr : g.is_regular = true <;> by_cases hd : g.ndim = 2 <;>
      simp [hr, hd, Except.isOk, Except.toBool]
  · intro hn
    unfold FourierShear.init
    by_cases hr : g.is_regular = true <;> by_cases hd : g.ndim = 2 <;>
      simp [hr, hd] <;> exact absurd ⟨hr, hd⟩ hn
  · intro hcon
    have : "NameError: name _use_mkl is not defined"
        = "ValueError: The input grid should be 2D and regularly spaced." := by
      have h2 := hcon
      unfold FourierShear.operationCoded use_mkl_lookup at h2
      exact Except.error.inj h2
    exact absurd this (by decide)

/-- C10: calling an OpticalElement never returns normally: the call either
propagates the exception raised by forward, or raises the value forward
produced instead of returning it; the base class forward itself raises
NotImplementedError. -/
theorem opticalElement_call_raises (W V : Type) (el : OpticalElement W V) (w : W) :
    (∀ v : V, el.call w ≠ Except.ok v)
    ∧ (∀ v : V, el.forward w = Except.ok v →
        el.call w = Except.error (PyExc.raisedValue v))
    ∧ ((OpticalElement.base W V).forward w = Except.error PyExc.notImplementedError) := by
  refine ⟨?_, ?_, rfl⟩
  · intro v hv
    unfold OpticalElement.call at hv
    cases hf : el.forward w <;> rw [hf] at hv <;> cases hv
  · intro v hv
    unfold OpticalElement.call
    rw [hv]

/-! Witness theorems: each proved theorem with a hypothesis, applied at a
concrete input. -/

/-- Witness for the amended C2: the identity transfer function on the
unpadded 2-point filter round-trips the all-ones field. -/
theorem fourierFilter_unitary_roundtrip_witness :
    flt2.backward tfOne (flt2.forward tfOne fOnes) = fOnes :=
  (fourierFilter_unitary_roundtrip rfl flt2 rfl neg_one_primitive_root_two
    (by norm_num) tfOne (fun x => by norm_num [tOne]) fOnes fOnes).1

/-- Witness for C3: the concrete matrix transfer function dispatches to
the matrix-vector contraction path. -/
theorem fourierFilter_dispatch_witness :
    tfM.apply false = field_dot tM
      ∧ tfM.apply true = field_dot (field_conjugate_transpose tM) :=
  (fourierFilter_dispatch tfM).2.1 tM rfl

/-- Witness for C5: the concrete filter's output grid differs from its
internal grid. -/
theorem fourierFilter_output_wrapping_witness :
    (flt2.operationField tfOne false fOnes).1 ≠ flt2.internal_grid :=
  (fourierFilter_output_wrapping flt2 tfOne false fOnes).2.1 (by decide)

/-- Witness for C8: setting shear 3 on the concrete axis-0 shear state
yields the phase-ramp filter of the outer product. -/
theorem fourierShear_set_shear_witness :
    (st0.setShear (fun x => x) 1 6 (3 : ℚ)).filter
      = fun iy ix => (fun x => x) (-(1 : ℚ) * 3
          * (st0.grid.yc iy * ifftshift1 (makeFFTCoords 6 st0.grid.nx st0.grid.dx) ix)) :=
  (fourierShear_set_shear (fun x => x) 1 6 st0 3).2.2.2.1 rfl

/-- Witness for C9: constructing a FourierShear on a 3-D grid raises the
ValueError. -/
theorem fourierShear_init_validation_witness :
    FourierShear.init (fun x : ℚ => x) 1 6 gBad 0 0
      = Except.error "ValueError: The input grid should be 2D and regularly spaced." :=
  (fourierShear_init_validation (fun x : ℚ => x) 1 6 gBad 0 0 1 1 st0 false
    (fun _ _ => 0)).2.1 (by decide)

/-- Witness for C10: the concrete element whose forward returns 4 raises
that value from __call__. -/
theorem opticalElement_call_raises_witness :
    el1.call 3 = Except.error (PyExc.raisedValue 4) :=
  (opticalElement_call_raises ℕ ℕ el1 3).2.1 4 rfl

end HCIPy
